import Mathlib

/-!
Verification of the Spotify streaming-history pipeline (`src/app.py`).

The pandas/streamlit program is shallowly embedded: a DataFrame is a list of
rows, timestamps are seconds counted from the civil epoch 0000-03-01, and the
timezone conversion performed by `pd.Series.dt.tz_convert('US/Central')` is
modelled by the post-2007 United States daylight-saving rules that the tz
database applies to the modern instants this application processes
(CST = UTC-6, CDT = UTC-5; DST from 02:00 local on the second Sunday of March
to 02:00 local on the first Sunday of November).
-/

namespace SpotifyApp

/-- Days from 0000-03-01 to the civil date `y-m-d` (proleptic Gregorian),
the standard era-based civil-calendar algorithm. -/
def daysFromCivil (y m d : Nat) : Nat :=
  let y' := if m ≤ 2 then y - 1 else y
  let era := y' / 400
  let yoe := y' % 400
  let mp := (m + 9) % 12
  let doy := (153 * mp + 2) / 5 + d - 1
  let doe := yoe * 365 + yoe / 4 - yoe / 100 + doy
  era * 146097 + doe

/-- Inverse of `daysFromCivil`: the civil date `(y, m, d)` of a day count. -/
def civilFromDays (z : Nat) : Nat × Nat × Nat :=
  let era := z / 146097
  let doe := z % 146097
  let yoe := (doe - doe / 1460 + doe / 36524 - doe / 146096) / 365
  let y := yoe + era * 400
  let doy := doe - (365 * yoe + yoe / 4 - yoe / 100)
  let mp := (5 * doy + 2) / 153
  let d := doy - (153 * mp + 2) / 5 + 1
  let m := if mp < 10 then mp + 3 else mp - 9
  (if m ≤ 2 then y + 1 else y, m, d)

/-- Weekday index of a day count, Monday = 0 … Sunday = 6
(the numbering pandas uses for `Timestamp.weekday`). -/
def weekday (z : Nat) : Nat := (z + 2) % 7

/-- Weekday names as produced by `pandas.Series.dt.day_name()`. -/
def dayName : Nat → String
  | 0 => "Monday"
  | 1 => "Tuesday"
  | 2 => "Wednesday"
  | 3 => "Thursday"
  | 4 => "Friday"
  | 5 => "Saturday"
  | _ => "Sunday"

/-- A timezone-naive civil timestamp, as parsed by `pd.to_datetime` from the
`endTime` strings of a streaming-history export. -/
structure Naive where
  year : Nat
  month : Nat
  day : Nat
  hour : Nat
  minute : Nat
  second : Nat
deriving DecidableEq, Repr

/-- Seconds from the epoch 0000-03-01 to a naive civil timestamp. -/
def secsOfNaive (n : Naive) : Nat :=
  daysFromCivil n.year n.month n.day * 86400
    + n.hour * 3600 + n.minute * 60 + n.second

/-- Gregorian leap-year test. -/
def isLeap (y : Nat) : Bool :=
  (y % 4 == 0 && y % 100 != 0) || y % 400 == 0

/-- Number of days in a month, used to validate parsed dates the way
`pd.to_datetime` rejects out-of-range components. -/
def daysInMonth (y m : Nat) : Nat :=
  if m = 2 then (if isLeap y then 29 else 28)
  else if m = 4 ∨ m = 6 ∨ m = 9 ∨ m = 11 then 30
  else 31

/-- Day of the month of the first Sunday of month `m` of year `y`. -/
def firstSundayOf (y m : Nat) : Nat :=
  1 + (6 - weekday (daysFromCivil y m 1)) % 7

/-- UTC instant (seconds) at which US daylight-saving time starts in year `y`:
02:00 local standard time on the second Sunday of March, i.e. 08:00 UTC
for the Central zone. -/
def dstStartCentral (y : Nat) : Nat :=
  secsOfNaive ⟨y, 3, firstSundayOf y 3 + 7, 8, 0, 0⟩

/-- UTC instant (seconds) at which US daylight-saving time ends in year `y`:
02:00 local daylight time on the first Sunday of November, i.e. 07:00 UTC
for the Central zone. -/
def dstEndCentral (y : Nat) : Nat :=
  secsOfNaive ⟨y, 11, firstSundayOf y 11, 7, 0, 0⟩

/-- Whether the UTC instant `t` falls inside the US daylight-saving period
of its year (post-2007 rules). -/
def isDSTCentral (t : Nat) : Bool :=
  let y := (civilFromDays (t / 86400)).1
  dstStartCentral y ≤ t && t < dstEndCentral y

/-- UTC offset, in seconds, that `tz_convert('US/Central')` applies to the
UTC instant `t`: −5 h during daylight-saving time, −6 h otherwise. -/
def centralOffset (t : Nat) : Int :=
  if isDSTCentral t then -5 * 3600 else -6 * 3600

/-- Local wall-clock seconds (same epoch) of the UTC instant `t` after
conversion to US/Central. -/
def toCentral (t : Nat) : Nat :=
  if isDSTCentral t then t - 5 * 3600 else t - 6 * 3600

/-- Splits a character list at every occurrence of `c`
(the shape `String.split` gives to date and time fields). -/
def splitChar (c : Char) : List Char → List (List Char)
  | [] => [[]]
  | x :: xs =>
    match splitChar c xs with
    | [] => [[]]
    | g :: gs => if x = c then [] :: g :: gs else (x :: g) :: gs

/-- Numeric value of a non-empty list of decimal digits; `none` otherwise. -/
def digitsVal : List Char → Option Nat
  | [] => none
  | l =>
    l.foldl (fun acc c =>
      match acc with
      | none => none
      | some v => if '0' ≤ c ∧ c ≤ '9' then some (v * 10 + (c.toNat - 48)) else none)
      (some 0)

/-- Parses an `endTime` string of a streaming-history export
(`YYYY-MM-DD HH:MM` or `YYYY-MM-DD HH:MM:SS`), validating each component the
way `pd.to_datetime` rejects out-of-range dates; `none` models the parse
error `pd.to_datetime` raises. -/
def parseTs (s : String) : Option Naive :=
  match splitChar ' ' s.data with
  | [d, t] =>
    let fields :=
      match splitChar '-' d, splitChar ':' t with
      | [y, mo, da], [h, mi, se] =>
        some (digitsVal y, digitsVal mo, digitsVal da, digitsVal h, digitsVal mi, digitsVal se)
      | [y, mo, da], [h, mi] =>
        some (digitsVal y, digitsVal mo, digitsVal da, digitsVal h, digitsVal mi, some 0)
      | _, _ => none
    match fields with
    | some (some y, some mo, some da, some h, some mi, some se) =>
      if 1 ≤ y ∧ 1 ≤ mo ∧ mo ≤ 12 ∧ 1 ≤ da ∧ da ≤ daysInMonth y mo
          ∧ h < 24 ∧ mi < 60 ∧ se < 60 then
        some ⟨y, mo, da, h, mi, se⟩
      else none
    | _ => none
  | _ => none

/-- The value held by the `endTime` column of one DataFrame cell: the naive
string as loaded from JSON, or the timezone-aware timestamp `clean_data`
overwrites it with (local wall-clock seconds plus UTC offset). -/
inductive TimeVal
  | raw (s : String)
  | zoned (localSecs : Nat) (utcOffset : Int)
deriving DecidableEq, Repr

/-- One row of the raw streaming table, as parsed from a
`StreamingHistory` JSON file. -/
structure Row where
  trackName : String
  artistName : String
  endTime : TimeVal
  msPlayed : Nat
deriving DecidableEq, Repr

/-- One row of the canonical table produced by `clean_data`: the localized
timestamp together with the derived `hour` and `day_of_week` columns. -/
structure CanonRow where
  trackName : String
  artistName : String
  localSecs : Nat
  utcOffset : Int
  msPlayed : Nat
  hour : Nat
  day_of_week : String
deriving DecidableEq, Repr

/-- The effect of the three `endTime` assignments of `clean_data` on one row:
parse the naive string (`pd.to_datetime`), declare it UTC (`tz_localize`),
convert to US/Central (`tz_convert`).  Returns the updated row (the column
assignment mutates the caller's DataFrame in place) together with the
localized wall-clock seconds and UTC offset; `none` models the exception
raised on an unparseable string or on a cell that is already
timezone-aware. -/
def localizeRow (r : Row) : Option (Row × Nat × Int) :=
  match r.endTime with
  | .raw s =>
    (parseTs s).map (fun n =>
      let t := secsOfNaive n
      ({ r with endTime := .zoned (toCentral t) (centralOffset t) },
       toCentral t, centralOffset t))
  | .zoned _ _ => none

/-- Application of `localizeRow` down the whole `endTime` column. -/
def localizeAll : List Row → Option (List (Row × Nat × Int))
  | [] => some []
  | r :: rs =>
    match localizeRow r, localizeAll rs with
    | some p, some ps => some (p :: ps)
    | _, _ => none

/-- One row of `df_filtered` after the derived `hour` and `day_of_week`
columns are added from the localized timestamp
(`dt.hour` and `dt.day_name()`). -/
def canonOf (p : Row × Nat × Int) : CanonRow :=
  { trackName := p.1.trackName
    artistName := p.1.artistName
    localSecs := p.2.1
    utcOffset := p.2.2
    msPlayed := p.1.msPlayed
    hour := p.2.1 % 86400 / 3600
    day_of_week := dayName (weekday (p.2.1 / 86400)) }

/-- Model of `clean_data` in `src/app.py`: overwrite the `endTime` column with the
localized timestamps (mutating the input DataFrame), keep the rows with
`msPlayed > 30000`, and add the `hour` and `day_of_week` columns on the
filtered copy.  Returns the post-call state of the input table together
with the returned canonical table; `none` models a raised exception. -/
def clean_data (df : List Row) : Option (List Row × List CanonRow) :=
  (localizeAll df).map (fun ps =>
    (ps.map (fun p => p.1),
     (ps.filter (fun p => 30000 < p.1.msPlayed)).map canonOf))

/-- Distinct values of a list in order of first occurrence (the key order a
pandas hash-table based `value_counts` produces before sorting). -/
def firstOccs {α : Type} [DecidableEq α] : List α → List α
  | [] => []
  | x :: xs => x :: (firstOccs xs).filter (fun y => y ≠ x)

/-- Occurrence counts per distinct value, keys in first-occurrence order
(the unsorted core of `Series.value_counts`). -/
def countsRaw {α : Type} [DecidableEq α] (xs : List α) : List (α × Nat) :=
  (firstOccs xs).map (fun v => (v, xs.count v))

/-- Count-descending comparison used to order `value_counts` results. -/
def cntGe {α : Type} (a b : α × Nat) : Prop := b.2 ≤ a.2

instance {α : Type} : DecidableRel (@cntGe α) := fun a b => Nat.decLe b.2 a.2

instance {α : Type} : IsTotal (α × Nat) cntGe :=
  ⟨fun a b => (Nat.le_total b.2 a.2).imp (fun h => h) (fun h => h)⟩

instance {α : Type} : IsTrans (α × Nat) cntGe :=
  ⟨fun _ _ _ h1 h2 => Nat.le_trans h2 h1⟩

/-- Model of `Series.value_counts()`: occurrence counts sorted descending by count,
ties kept in first-occurrence order (pandas sorts the hash-table result
with a stable sort). -/
def value_counts {α : Type} [DecidableEq α] (xs : List α) : List (α × Nat) :=
  List.insertionSort cntGe (countsRaw xs)

/-- Model of `Series.head(n)` after `value_counts`: the top-`n` ranking. -/
def top_n {α : Type} [DecidableEq α] (xs : List α) (n : Nat) : List (α × Nat) :=
  (value_counts xs).take n

/-- Model of `df['trackName'].value_counts().head(10)`. -/
def top_10_songs (df : List CanonRow) : List (String × Nat) :=
  top_n (df.map (fun r => r.trackName)) 10

/-- Key-ascending comparison, the order of `Series.sort_index()`. -/
def keyLe (a b : Nat × Nat) : Prop := a.1 ≤ b.1

instance : DecidableRel keyLe := fun a b => Nat.decLe a.1 b.1

instance : IsTotal (Nat × Nat) keyLe := ⟨fun a b => Nat.le_total a.1 b.1⟩

instance : IsTrans (Nat × Nat) keyLe := ⟨fun _ _ _ h1 h2 => Nat.le_trans h1 h2⟩

/-- Model of `df['hour'].value_counts().sort_index()`: counts of the hours that occur,
sorted ascending by hour. -/
def hourly_counts (df : List CanonRow) : List (Nat × Nat) :=
  List.insertionSort keyLe (value_counts (df.map (fun r => r.hour)))

/-- The fixed Monday-first label list passed to `reindex`. -/
def dayOrder : List String :=
  ["Monday", "Tuesday", "Wednesday", "Thursday", "Friday", "Saturday", "Sunday"]

/-- Model of `df['day_of_week'].value_counts().reindex([...])`: one entry per label in
the fixed order; a label absent from the counts gets `none` (pandas fills
`NaN`, not `0`). -/
def daily_counts (df : List CanonRow) : List (String × Option Nat) :=
  dayOrder.map (fun d =>
    (d, ((value_counts (df.map (fun r => r.day_of_week))).find?
          (fun p => p.1 == d)).map (fun p => p.2)))

/-- Calendar-month index (12·year + month−1) of a localized timestamp, the
bin key of `resample('M')` on the `endTime` index. -/
def monthIdx (t : Nat) : Nat :=
  let c := civilFromDays (t / 86400)
  c.1 * 12 + (c.2.1 - 1)

/-- The binning span of `resample('M')` on the `endTime` index: the earliest
and latest observed month, or `none` for the empty table. -/
def monthSpan (df : List CanonRow) : Option (Nat × Nat) :=
  match df.map (fun r => monthIdx r.localSecs) with
  | [] => none
  | m :: ms => some (ms.foldl Nat.min m, ms.foldl Nat.max m)

/-- Model of `df.set_index('endTime').resample('M').size()`: one bin per calendar
month from the earliest to the latest observed month inclusive, in
chronological order, each with the number of events in it — `resample`
emits empty intermediate bins with size 0. -/
def monthly_listening (df : List CanonRow) : List (Nat × Nat) :=
  match monthSpan df with
  | none => []
  | some (lo, hi) =>
    (List.range (hi + 1 - lo)).map (fun i =>
      (lo + i, df.countP (fun r => monthIdx r.localSecs == lo + i)))

/-- Errors the app can surface.  `untypedIndexError` models the plain
`IndexError` raised by `.index[0]` on an empty index, caught only by the
blanket `except Exception` handler; `noData` models the typed
`NoDataError` the specification describes, which the program never
raises. -/
inductive PipelineErr
  | untypedIndexError
  | noData
deriving DecidableEq, Repr

/-- Model of `df['artistName'].value_counts().index[0]`: the most-played artist, or
the untyped `IndexError` when the table is empty. -/
def top_artist_name (df : List CanonRow) : Except PipelineErr String :=
  match (value_counts (df.map (fun r => r.artistName))).head? with
  | some p => Except.ok p.1
  | none => Except.error PipelineErr.untypedIndexError

/-- Model of `df[df['artistName'] == name]`: the drill-down slice for one artist. -/
def artist_df (df : List CanonRow) (a : String) : List CanonRow :=
  df.filter (fun r => r.artistName == a)

/-- Whether `sub` occurs contiguously inside `l`
(Python's `sub in name` on strings). -/
def hasSubAux (sub : List Char) : List Char → Bool
  | [] => sub.isEmpty
  | x :: xs => sub.isPrefixOf (x :: xs) || hasSubAux sub xs

/-- Case-sensitive substring test on strings, Python's `tok in s`. -/
def hasSub (s tok : String) : Bool := hasSubAux tok.data s.data

/-- One uploaded file: its name and, for files read as streaming history,
its parsed JSON rows. -/
structure UploadedFile where
  name : String
  rows : List Row
deriving DecidableEq, Repr

/-- Model of `[f for f in uploaded_files if "StreamingHistory" in f.name]`. -/
def streaming_files (files : List UploadedFile) : List UploadedFile :=
  files.filter (fun f => hasSub f.name "StreamingHistory")

/-- Model of `[f for f in uploaded_files if "Wrapped" in f.name]`. -/
def wrapped_files (files : List UploadedFile) : List UploadedFile :=
  files.filter (fun f => hasSub f.name "Wrapped")

/-- Model of `[f for f in uploaded_files if "SearchQueries" in f.name]`. -/
def search_files (files : List UploadedFile) : List UploadedFile :=
  files.filter (fun f => hasSub f.name "SearchQueries")

/-- The `streaming` entry of `load_data`: `pd.concat` of every file in the
streaming group, or `None` when the group is empty. -/
def load_streaming (files : List UploadedFile) : Option (List Row) :=
  match streaming_files files with
  | [] => none
  | fs => some (fs.map (fun f => f.rows)).flatten

/-- Inversion of `localizeRow`: a successful result comes from a naive
string cell, and records the converted instant. -/
theorem localizeRow_eq {r : Row} {p : Row × Nat × Int}
    (h : localizeRow r = some p) :
    ∃ s n, r.endTime = TimeVal.raw s ∧ parseTs s = some n ∧
      p.1 = { r with endTime := TimeVal.zoned (toCentral (secsOfNaive n))
                                   (centralOffset (secsOfNaive n)) } ∧
      p.2.1 = toCentral (secsOfNaive n) ∧
      p.2.2 = centralOffset (secsOfNaive n) := by
  obtain ⟨tn, an, et, ms⟩ := r
  cases et with
  | raw s =>
    cases hn : parseTs s with
    | none => simp [localizeRow, hn] at h
    | some n =>
      simp only [localizeRow, hn, Option.map_some', Option.some.injEq] at h
      subst h
      exact ⟨s, n, rfl, hn, rfl, rfl, rfl⟩
  | zoned l o => simp [localizeRow] at h

/-- Every element of a successful `localizeAll` run comes from a row of the
input table. -/
theorem localizeAll_mem {df : List Row} {ps : List (Row × Nat × Int)}
    (h : localizeAll df = some ps) :
    ∀ p ∈ ps, ∃ r ∈ df, localizeRow r = some p := by
  induction df generalizing ps with
  | nil =>
    simp only [localizeAll, Option.some.injEq] at h
    subst h; intro p hp; cases hp
  | cons r rs ih =>
    simp only [localizeAll] at h
    cases h1 : localizeRow r with
    | none => rw [h1] at h; simp at h
    | some q =>
      rw [h1] at h
      cases h2 : localizeAll rs with
      | none => rw [h2] at h; simp at h
      | some qs =>
        rw [h2] at h
        simp only [Option.some.injEq] at h
        subst h
        intro p hp
        rcases List.mem_cons.mp hp with rfl | hp'
        · exact ⟨r, List.mem_cons_self r rs, h1⟩
        · obtain ⟨r', hr', hl⟩ := ih h2 p hp'
          exact ⟨r', List.mem_cons_of_mem r hr', hl⟩

/-- Successful `localizeAll` preserves the number of rows. -/
theorem localizeAll_length {df : List Row} {ps : List (Row × Nat × Int)}
    (h : localizeAll df = some ps) : ps.length = df.length := by
  induction df generalizing ps with
  | nil =>
    simp only [localizeAll, Option.some.injEq] at h
    subst h; rfl
  | cons r rs ih =>
    simp only [localizeAll] at h
    cases h1 : localizeRow r with
    | none => rw [h1] at h; simp at h
    | some q =>
      rw [h1] at h
      cases h2 : localizeAll rs with
      | none => rw [h2] at h; simp at h
      | some qs =>
        rw [h2] at h
        simp only [Option.some.injEq] at h
        subst h
        simp [ih h2]

/-- Successful `localizeAll` distributes over row-concatenation of two tables. -/
theorem localizeAll_append {a b : List Row}
    {pa pb : List (Row × Nat × Int)}
    (ha : localizeAll a = some pa) (hb : localizeAll b = some pb) :
    localizeAll (a ++ b) = some (pa ++ pb) := by
  induction a generalizing pa with
  | nil =>
    simp only [localizeAll, Option.some.injEq] at ha
    subst ha; simpa using hb
  | cons r rs ih =>
    simp only [localizeAll] at ha
    cases h1 : localizeRow r with
    | none => rw [h1] at ha; simp at ha
    | some q =>
      rw [h1] at ha
      cases h2 : localizeAll rs with
      | none => rw [h2] at ha; simp at ha
      | some qs =>
        rw [h2] at ha
        simp only [Option.some.injEq] at ha
        subst ha
        show localizeAll (r :: (rs ++ b)) = _
        simp only [localizeAll]
        rw [h1, ih h2]
        rfl

/-- Membership in `firstOccs` is membership in the original list. -/
theorem firstOccs_mem {α : Type} [DecidableEq α] {xs : List α} {v : α} :
    v ∈ firstOccs xs ↔ v ∈ xs := by
  induction xs with
  | nil => simp [firstOccs]
  | cons x xs ih =>
    unfold firstOccs
    by_cases hv : v = x
    · subst hv; simp
    · simp only [List.mem_cons, hv, false_or]
      constructor
      · intro h
        exact ih.mp (List.mem_of_mem_filter h)
      · intro h
        exact List.mem_filter.mpr ⟨ih.mpr h, by simp [hv]⟩

/-- Structure of membership in `countsRaw`: the key occurs in the data and
the count is its number of occurrences. -/
theorem mem_countsRaw {α : Type} [DecidableEq α] {xs : List α}
    {p : α × Nat} (h : p ∈ countsRaw xs) :
    p.1 ∈ xs ∧ p.2 = xs.count p.1 := by
  unfold countsRaw at h
  obtain ⟨v, hv, rfl⟩ := List.mem_map.mp h
  exact ⟨firstOccs_mem.mp hv, rfl⟩

/-- Filtering at a fixed count commutes with `orderedInsert`: the inserted
pair lands in front of every pair of the same count. -/
theorem filter_count_orderedInsert {α : Type} (p : α × Nat)
    (l : List (α × Nat)) (c : Nat) :
    (List.orderedInsert cntGe p l).filter (fun q => decide (q.2 = c)) =
      if p.2 = c then p :: l.filter (fun q => decide (q.2 = c))
      else l.filter (fun q => decide (q.2 = c)) := by
  induction l with
  | nil =>
    by_cases h : p.2 = c <;> simp [List.orderedInsert, h]
  | cons q l ih =>
    simp only [List.orderedInsert]
    by_cases hq : cntGe p q
    · rw [if_pos hq]
      by_cases h : p.2 = c <;> simp [List.filter_cons, h]
    · rw [if_neg hq]
      by_cases h : p.2 = c
      · have hq2 : ¬ q.2 = c := by unfold cntGe at hq; omega
        simp [List.filter_cons, hq2, ih, h]
      · simp [List.filter_cons, ih, h]

/-- Stability of the `value_counts` sort: pairs of equal count keep their
first-occurrence relative order. -/
theorem filter_count_insertionSort {α : Type} (l : List (α × Nat)) (c : Nat) :
    (List.insertionSort cntGe l).filter (fun q => decide (q.2 = c)) =
      l.filter (fun q => decide (q.2 = c)) := by
  induction l with
  | nil => rfl
  | cons p l ih =>
    show (List.orderedInsert cntGe p (List.insertionSort cntGe l)).filter _ = _
    rw [filter_count_orderedInsert]
    by_cases h : p.2 = c <;> simp [List.filter, h, ih]

/-- Emptiness of `value_counts`: it is empty exactly on the empty column. -/
theorem value_counts_nil {α : Type} [DecidableEq α] (xs : List α) :
    value_counts xs = [] ↔ xs = [] := by
  cases xs with
  | nil => simp [value_counts, countsRaw, firstOccs]
  | cons x xs =>
    constructor
    · intro h
      have hlen : (value_counts (x :: xs)).length = (countsRaw (x :: xs)).length :=
        (List.perm_insertionSort cntGe _).length_eq
      rw [h] at hlen
      simp [countsRaw, firstOccs] at hlen
    · intro h; cases h

/-- C2: for every raw table that `clean_data` processes successfully, every
row of the canonical table it returns has `msPlayed` strictly greater than
30000; no row at or below the threshold survives normalization. -/
theorem C2_duration_filter (df : List Row) (out : List Row × List CanonRow)
    (h : clean_data df = some out) : ∀ c ∈ out.2, 30000 < c.msPlayed := by
  intro c hc
  unfold clean_data at h
  cases hps : localizeAll df with
  | none => rw [hps] at h; simp at h
  | some ps =>
    rw [hps] at h
    simp only [Option.map_some', Option.some.injEq] at h
    subst h
    simp only [List.mem_map] at hc
    obtain ⟨p, hp, rfl⟩ := hc
    have hpf := (List.mem_filter.mp hp).2
    simpa [canonOf] using of_decide_eq_true hpf

/-- Witness for C2 at a concrete one-row table. -/
theorem C2_duration_filter_witness :
    30000 < (CanonRow.mk "T1" "A" 63866104200 (-21600) 200000 0 "Monday").msPlayed :=
  C2_duration_filter [⟨"T1", "A", TimeVal.raw "2024-01-01 06:30:00", 200000⟩]
    ([⟨"T1", "A", TimeVal.zoned 63866104200 (-21600), 200000⟩],
     [⟨"T1", "A", 63866104200, -21600, 200000, 0, "Monday"⟩])
    (by decide) _ (by decide)

/-- C9 counterexample: `clean_data` mutates the table it receives — after
the call on a one-row table, the raw table no longer holds its original
naive string `endTime` value. -/
theorem C9_no_mutation_counterexample :
    (clean_data [⟨"T1", "A", TimeVal.raw "2024-01-01 06:30:00", 200000⟩]).map
        Prod.fst
      ≠ some [⟨"T1", "A", TimeVal.raw "2024-01-01 06:30:00", 200000⟩] := by
  decide

/-- C9 (amended): normalization is not input-preserving: after a successful
`clean_data` call the raw table has the same number of rows but every one
of its `endTime` cells has been overwritten with a timezone-aware
localized timestamp, so the original naive strings are not retained. -/
theorem C9_mutation_amended (df : List Row) (out : List Row × List CanonRow)
    (h : clean_data df = some out) :
    out.1.length = df.length ∧
      ∀ r ∈ out.1, ∃ loc off, r.endTime = TimeVal.zoned loc off := by
  unfold clean_data at h
  cases hps : localizeAll df with
  | none => rw [hps] at h; simp at h
  | some ps =>
    rw [hps] at h
    simp only [Option.map_some', Option.some.injEq] at h
    subst h
    constructor
    · simpa using localizeAll_length hps
    · intro r hr
      simp only [List.mem_map] at hr
      obtain ⟨p, hp, rfl⟩ := hr
      obtain ⟨r0, hr0, hl⟩ := localizeAll_mem hps p hp
      obtain ⟨s, n, hraw, hparse, hp1, _, _⟩ := localizeRow_eq hl
      exact ⟨toCentral (secsOfNaive n), centralOffset (secsOfNaive n), by rw [hp1]⟩

/-- Witness for C9 (amended) at a concrete one-row table. -/
theorem C9_mutation_amended_witness :
    ([Row.mk "T1" "A" (TimeVal.zoned 63866104200 (-21600)) 200000]).length =
      ([Row.mk "T1" "A" (TimeVal.raw "2024-01-01 06:30:00") 200000]).length :=
  (C9_mutation_amended [⟨"T1", "A", TimeVal.raw "2024-01-01 06:30:00", 200000⟩]
    ([⟨"T1", "A", TimeVal.zoned 63866104200 (-21600), 200000⟩],
     [⟨"T1", "A", 63866104200, -21600, 200000, 0, "Monday"⟩])
    (by decide)).1

/-- C7 counterexample: on the empty canonical table the top-artist lookup
fails with the untyped `IndexError` of `.index[0]` (caught only by the
app's blanket handler), not with a typed `NoDataError` — no `NoDataError`
exists in the program. -/
theorem C7_nodata_counterexample :
    top_artist_name [] = Except.error PipelineErr.untypedIndexError ∧
      PipelineErr.untypedIndexError ≠ PipelineErr.noData :=
  ⟨rfl, by decide⟩

/-- C7 (amended): the top-artist lookup fails exactly on the empty table and
then with the untyped indexing error, never with a typed `NoDataError`;
when it succeeds, the drill-down slice of the returned artist is
non-empty, so a drill-down on an absent artist never arises. -/
theorem C7_nodata_amended (df : List CanonRow) :
    (top_artist_name df = Except.error PipelineErr.untypedIndexError ↔ df = [])
    ∧ top_artist_name df ≠ Except.error PipelineErr.noData
    ∧ ∀ a, top_artist_name df = Except.ok a → artist_df df a ≠ [] := by
  cases hl : value_counts (df.map (fun r => r.artistName)) with
  | nil =>
    have hdf : df = [] := by
      have hm := (value_counts_nil (df.map (fun r => r.artistName))).mp hl
      exact List.map_eq_nil_iff.mp hm
    refine ⟨⟨fun _ => hdf, fun _ => ?_⟩, ?_, ?_⟩
    · simp [top_artist_name, hl]
    · simp [top_artist_name, hl]
    · intro a ha
      rw [top_artist_name, hl] at ha
      simp at ha
  | cons p t =>
    have hdf : df ≠ [] := by
      intro h
      subst h
      simp [value_counts, countsRaw, firstOccs] at hl
    refine ⟨?_, ?_, ?_⟩
    · simp [top_artist_name, hl, hdf]
    · simp [top_artist_name, hl]
    · intro a ha
      rw [top_artist_name, hl] at ha
      simp only [List.head?_cons, Except.ok.injEq] at ha
      subst ha
      have hp : p ∈ value_counts (df.map (fun r => r.artistName)) := by
        rw [hl]; exact List.mem_cons_self p t
      have hpc : p ∈ countsRaw (df.map (fun r => r.artistName)) :=
        (List.mem_insertionSort cntGe).mp hp
      have hk := (mem_countsRaw hpc).1
      obtain ⟨r, hr, hra⟩ := List.mem_map.mp hk
      exact List.ne_nil_of_mem
        (List.mem_filter.mpr ⟨hr, by simp [hra]⟩)

/-- Witness for C7 (amended) at a concrete one-row table. -/
theorem C7_nodata_amended_witness :
    artist_df [CanonRow.mk "T1" "A" 63866104200 (-21600) 200000 0 "Monday"] "A" ≠ [] :=
  (C7_nodata_amended [⟨"T1", "A", 63866104200, -21600, 200000, 0, "Monday"⟩]).2.2
    "A" rfl

/-- C1: `clean_data` parses each naive `endTime` string, treats it as UTC,
converts it to US/Central with the daylight-saving-aware offset in effect
at that instant, and derives `hour` and `day_of_week` from the localized
timestamp, not from the UTC instant; in particular the naive UTC instant
2024-01-01 06:30:00 localizes to 2024-01-01 00:30:00 at offset −06:00
with hour-of-day 0 (not 6), and the UTC instant 2024-07-01 06:30:00,
inside the US DST period, converts at offset −05:00, not the standard
−06:00. -/
theorem C1_timezone_localization :
    (∀ (df : List Row) (out : List Row × List CanonRow),
      clean_data df = some out → ∀ c ∈ out.2,
        (∃ r ∈ df, ∃ s n, r.endTime = TimeVal.raw s ∧ parseTs s = some n ∧
          c.localSecs = toCentral (secsOfNaive n) ∧
          c.utcOffset = centralOffset (secsOfNaive n)) ∧
        c.hour = c.localSecs % 86400 / 3600 ∧
        c.day_of_week = dayName (weekday (c.localSecs / 86400)))
    ∧ toCentral (secsOfNaive ⟨2024, 1, 1, 6, 30, 0⟩) = secsOfNaive ⟨2024, 1, 1, 0, 30, 0⟩
    ∧ centralOffset (secsOfNaive ⟨2024, 1, 1, 6, 30, 0⟩) = -6 * 3600
    ∧ secsOfNaive ⟨2024, 1, 1, 0, 30, 0⟩ % 86400 / 3600 = 0
    ∧ centralOffset (secsOfNaive ⟨2024, 7, 1, 6, 30, 0⟩) = -5 * 3600
    ∧ toCentral (secsOfNaive ⟨2024, 7, 1, 6, 30, 0⟩) = secsOfNaive ⟨2024, 7, 1, 1, 30, 0⟩ := by
  refine ⟨?_, by decide, by decide, by decide, by decide, by decide⟩
  intro df out h c hc
  unfold clean_data at h
  cases hps : localizeAll df with
  | none => rw [hps] at h; simp at h
  | some ps =>
    rw [hps] at h
    simp only [Option.map_some', Option.some.injEq] at h
    subst h
    simp only [List.mem_map] at hc
    obtain ⟨p, hp, rfl⟩ := hc
    have hpm := (List.mem_filter.mp hp).1
    obtain ⟨r0, hr0, hl⟩ := localizeAll_mem hps p hpm
    obtain ⟨s, n, hraw, hparse, hp1, hp21, hp22⟩ := localizeRow_eq hl
    exact ⟨⟨r0, hr0, s, n, hraw, hparse, hp21, hp22⟩, rfl, rfl⟩

/-- Witness for C1 at a concrete one-row table. -/
theorem C1_timezone_localization_witness :
    (CanonRow.mk "T1" "A" 63866104200 (-21600) 200000 0 "Monday").hour =
      (CanonRow.mk "T1" "A" 63866104200 (-21600) 200000 0 "Monday").localSecs
        % 86400 / 3600 :=
  ((C1_timezone_localization.1
      [⟨"T1", "A", TimeVal.raw "2024-01-01 06:30:00", 200000⟩]
      ([⟨"T1", "A", TimeVal.zoned 63866104200 (-21600), 200000⟩],
       [⟨"T1", "A", 63866104200, -21600, 200000, 0, "Monday"⟩])
      (by decide) _ (by decide)).2).1

/-- C8: loading two primary-log files with disjoint rows merges them by
row-concatenation, and normalizing the merged table keeps exactly as many
rows as the two files' individual post-filter row counts added. -/
theorem C8_merge_counts (f1 f2 : UploadedFile)
    (o1 o2 : List Row × List CanonRow)
    (hd : f1.rows.Disjoint f2.rows)
    (hn1 : hasSub f1.name "StreamingHistory" = true)
    (hn2 : hasSub f2.name "StreamingHistory" = true)
    (h1 : clean_data f1.rows = some o1) (h2 : clean_data f2.rows = some o2) :
    load_streaming [f1, f2] = some (f1.rows ++ f2.rows)
    ∧ ∃ oc, clean_data (f1.rows ++ f2.rows) = some oc
        ∧ oc.2.length = o1.2.length + o2.2.length := by
  constructor
  · unfold load_streaming streaming_files
    simp [List.filter, hn1, hn2]
  · unfold clean_data at h1 h2 ⊢
    cases hp1 : localizeAll f1.rows with
    | none => rw [hp1] at h1; simp at h1
    | some ps1 =>
      cases hp2 : localizeAll f2.rows with
      | none => rw [hp2] at h2; simp at h2
      | some ps2 =>
        rw [hp1] at h1
        rw [hp2] at h2
        simp only [Option.map_some', Option.some.injEq] at h1 h2
        subst h1
        subst h2
        rw [localizeAll_append hp1 hp2]
        refine ⟨_, rfl, ?_⟩
        simp [List.filter_append]

/-- Witness for C8 at two concrete disjoint one-row files (the second row is
removed by the duration filter). -/
theorem C8_merge_counts_witness :
    load_streaming
        [⟨"StreamingHistory0.json", [⟨"T1", "A", TimeVal.raw "2024-01-01 06:30:00", 200000⟩]⟩,
         ⟨"StreamingHistory1.json", [⟨"T2", "B", TimeVal.raw "2024-03-02 01:00:00", 10000⟩]⟩] =
      some ([⟨"T1", "A", TimeVal.raw "2024-01-01 06:30:00", 200000⟩] ++
            [⟨"T2", "B", TimeVal.raw "2024-03-02 01:00:00", 10000⟩]) :=
  (C8_merge_counts
    ⟨"StreamingHistory0.json", [⟨"T1", "A", TimeVal.raw "2024-01-01 06:30:00", 200000⟩]⟩
    ⟨"StreamingHistory1.json", [⟨"T2", "B", TimeVal.raw "2024-03-02 01:00:00", 10000⟩]⟩
    ([⟨"T1", "A", TimeVal.zoned 63866104200 (-21600), 200000⟩],
     [⟨"T1", "A", 63866104200, -21600, 200000, 0, "Monday"⟩])
    ([⟨"T2", "B", TimeVal.zoned 63871354800 (-21600), 10000⟩], [])
    (by intro x hx hy; simp only [List.mem_singleton] at hx hy; subst hx;
        exact absurd hy (by decide))
    (by decide) (by decide) (by decide) (by decide)).1

/-- C10: the classifier's three groups are independent substring filters, so
a file whose name contains several of the tokens is placed in every
matching group; concretely "StreamingHistoryWrapped.json" lands in both
the streaming group and the wrapped group, and is then processed once per
category. -/
theorem C10_classifier_overlap :
    (∀ (files : List UploadedFile) (f : UploadedFile),
      (f ∈ streaming_files files ↔ f ∈ files ∧ hasSub f.name "StreamingHistory" = true)
      ∧ (f ∈ wrapped_files files ↔ f ∈ files ∧ hasSub f.name "Wrapped" = true)
      ∧ (f ∈ search_files files ↔ f ∈ files ∧ hasSub f.name "SearchQueries" = true))
    ∧ streaming_files [⟨"StreamingHistoryWrapped.json", []⟩] =
        [(⟨"StreamingHistoryWrapped.json", []⟩ : UploadedFile)]
    ∧ wrapped_files [⟨"StreamingHistoryWrapped.json", []⟩] =
        [(⟨"StreamingHistoryWrapped.json", []⟩ : UploadedFile)] := by
  refine ⟨?_, by decide, by decide⟩
  intro files f
  exact ⟨List.mem_filter, List.mem_filter, List.mem_filter⟩

/-- Witness for C10: the doubly-matching file is a member of the wrapped
group as well as the streaming group. -/
theorem C10_classifier_overlap_witness :
    (⟨"StreamingHistoryWrapped.json", []⟩ : UploadedFile) ∈
      wrapped_files [⟨"StreamingHistoryWrapped.json", []⟩] :=
  ((C10_classifier_overlap.1 [⟨"StreamingHistoryWrapped.json", []⟩]
      ⟨"StreamingHistoryWrapped.json", []⟩).2.1).mpr ⟨by decide, by decide⟩

/-- A left fold with `Nat.min` is below its initial value. -/
theorem foldl_min_le_self (l : List Nat) (a : Nat) : l.foldl Nat.min a ≤ a := by
  induction l generalizing a with
  | nil => exact Nat.le_refl a
  | cons x xs ih =>
    exact Nat.le_trans (ih (Nat.min a x)) (Nat.min_le_left a x)

/-- A left fold with `Nat.min` is below every list element. -/
theorem foldl_min_le (l : List Nat) (a : Nat) : ∀ x ∈ l, l.foldl Nat.min a ≤ x := by
  induction l generalizing a with
  | nil => intro x hx; cases hx
  | cons y ys ih =>
    intro x hx
    rcases List.mem_cons.mp hx with rfl | hx'
    · exact Nat.le_trans (foldl_min_le_self ys (Nat.min a x)) (Nat.min_le_right a x)
    · exact ih (Nat.min a y) x hx'

/-- A left fold with `Nat.max` is above its initial value. -/
theorem le_foldl_max_self (l : List Nat) (a : Nat) : a ≤ l.foldl Nat.max a := by
  induction l generalizing a with
  | nil => exact Nat.le_refl a
  | cons x xs ih =>
    exact Nat.le_trans (Nat.le_max_left a x) (ih (Nat.max a x))

/-- A left fold with `Nat.max` is above every list element. -/
theorem le_foldl_max (l : List Nat) (a : Nat) : ∀ x ∈ l, x ≤ l.foldl Nat.max a := by
  induction l generalizing a with
  | nil => intro x hx; cases hx
  | cons y ys ih =>
    intro x hx
    rcases List.mem_cons.mp hx with rfl | hx'
    · exact Nat.le_trans (Nat.le_max_right a x) (le_foldl_max_self ys (Nat.max a x))
    · exact ih (Nat.max a y) x hx'

/-- The span of `resample('M')` brackets the month of every row. -/
theorem monthSpan_bounds {df : List CanonRow} {lo hi : Nat}
    (h : monthSpan df = some (lo, hi)) :
    ∀ r ∈ df, lo ≤ monthIdx r.localSecs ∧ monthIdx r.localSecs ≤ hi := by
  cases df with
  | nil => simp [monthSpan] at h
  | cons r rs =>
    simp only [monthSpan, List.map_cons, Option.some.injEq, Prod.mk.injEq] at h
    obtain ⟨hlo, hhi⟩ := h
    subst hlo
    subst hhi
    intro x hx
    rcases List.mem_cons.mp hx with rfl | hx'
    · exact ⟨foldl_min_le_self _ _, le_foldl_max_self _ _⟩
    · exact ⟨foldl_min_le _ _ _ (List.mem_map_of_mem _ hx'),
             le_foldl_max _ _ _ (List.mem_map_of_mem _ hx')⟩

/-- C3 counterexample: the monthly series gap-fills — a canonical table with
events in January and March 2024 only yields a February bin with count 0
(`resample` emits empty bins), not a two-element series. -/
theorem C3_monthly_counterexample :
    clean_data [⟨"T1", "A", TimeVal.raw "2024-01-15 12:00:00", 200000⟩,
                ⟨"T2", "B", TimeVal.raw "2024-03-15 12:00:00", 200000⟩]
      = some ([⟨"T1", "A", TimeVal.zoned 63867333600 (-21600), 200000⟩,
               ⟨"T2", "B", TimeVal.zoned 63872521200 (-18000), 200000⟩],
              [⟨"T1", "A", 63867333600, -21600, 200000, 6, "Monday"⟩,
               ⟨"T2", "B", 63872521200, -18000, 200000, 7, "Friday"⟩])
    ∧ monthly_listening
        [⟨"T1", "A", 63867333600, -21600, 200000, 6, "Monday"⟩,
         ⟨"T2", "B", 63872521200, -18000, 200000, 7, "Friday"⟩] =
      [(24288, 1), (24289, 0), (24290, 1)]
    ∧ (24289, 0) ∈ monthly_listening
        [⟨"T1", "A", 63867333600, -21600, 200000, 6, "Monday"⟩,
         ⟨"T2", "B", 63872521200, -18000, 200000, 7, "Friday"⟩] := by
  refine ⟨by decide, by decide, by decide⟩

/-- C3 (amended): the monthly series is a contiguous ascending run of
calendar months covering every month from the earliest to the latest
observed month — months with zero events included with count 0 — and each
bin carries the number of events of its month. -/
theorem C3_monthly_amended (df : List CanonRow) :
    (∃ lo k, (monthly_listening df).map Prod.fst = List.range' lo k)
    ∧ (∀ p ∈ monthly_listening df,
        p.2 = df.countP (fun r => monthIdx r.localSecs == p.1))
    ∧ (∀ r ∈ df, ∀ r' ∈ df, ∀ m', monthIdx r.localSecs ≤ m' →
        m' ≤ monthIdx r'.localSecs →
        (m', df.countP (fun x => monthIdx x.localSecs == m')) ∈
          monthly_listening df) := by
  cases hs : monthSpan df with
  | none =>
    have hdf : df = [] := by
      cases df with
      | nil => rfl
      | cons r rs => simp [monthSpan] at hs
    subst hdf
    refine ⟨⟨0, 0, by simp [monthly_listening, monthSpan]⟩, ?_, ?_⟩
    · intro p hp; simp [monthly_listening, monthSpan] at hp
    · intro r hr; cases hr
  | some lohi =>
    obtain ⟨lo, hi⟩ := lohi
    have hml : monthly_listening df =
        (List.range (hi + 1 - lo)).map (fun i =>
          (lo + i, df.countP (fun r => monthIdx r.localSecs == lo + i))) := by
      unfold monthly_listening
      rw [hs]
    refine ⟨⟨lo, hi + 1 - lo, ?_⟩, ?_, ?_⟩
    · rw [hml, List.map_map, List.range'_eq_map_range]
      rfl
    · intro p hp
      rw [hml] at hp
      obtain ⟨i, _, rfl⟩ := List.mem_map.mp hp
      rfl
    · intro r hr r' hr' m' h1 h2
      have hb := monthSpan_bounds hs r hr
      have hb' := monthSpan_bounds hs r' hr'
      rw [hml]
      refine List.mem_map.mpr ⟨m' - lo, List.mem_range.mpr (by omega), ?_⟩
      have hmz : lo + (m' - lo) = m' := by omega
      rw [hmz]

/-- Witness for C3 (amended): February 2024 (month index 24289) lies between
the two observed months and is therefore present in the series. -/
theorem C3_monthly_amended_witness :
    (24289,
      ([⟨"T1", "A", 63867333600, -21600, 200000, 6, "Monday"⟩,
        ⟨"T2", "B", 63872521200, -18000, 200000, 7, "Friday"⟩] :
          List CanonRow).countP (fun x => monthIdx x.localSecs == 24289)) ∈
      monthly_listening
        [⟨"T1", "A", 63867333600, -21600, 200000, 6, "Monday"⟩,
         ⟨"T2", "B", 63872521200, -18000, 200000, 7, "Friday"⟩] :=
  (C3_monthly_amended
    [⟨"T1", "A", 63867333600, -21600, 200000, 6, "Monday"⟩,
     ⟨"T2", "B", 63872521200, -18000, 200000, 7, "Friday"⟩]).2.2
    ⟨"T1", "A", 63867333600, -21600, 200000, 6, "Monday"⟩ (by decide)
    ⟨"T2", "B", 63872521200, -18000, 200000, 7, "Friday"⟩ (by decide)
    24289 (by decide) (by decide)

/-- Taking the first component of a key-value pairing gives back the keys. -/
theorem map_fst_pairing {α β : Type} (g : α → β) (l : List α) :
    (l.map (fun d => (d, g d))).map Prod.fst = l := by
  induction l with
  | nil => rfl
  | cons x xs ih => simp [ih]

/-- C4 counterexample: on a one-row canonical table (a single event at hour
0) the hour histogram has a single entry, not 24 zero-filled buckets —
`value_counts().sort_index()` only lists hours that occur. -/
theorem C4_hourly_counterexample :
    clean_data [⟨"T1", "A", TimeVal.raw "2024-01-01 06:30:00", 200000⟩] =
      some ([⟨"T1", "A", TimeVal.zoned 63866104200 (-21600), 200000⟩],
            [⟨"T1", "A", 63866104200, -21600, 200000, 0, "Monday"⟩])
    ∧ hourly_counts [⟨"T1", "A", 63866104200, -21600, 200000, 0, "Monday"⟩] =
        [(0, 1)]
    ∧ (hourly_counts
        [⟨"T1", "A", 63866104200, -21600, 200000, 0, "Monday"⟩]).length ≠ 24 := by
  refine ⟨by decide, by decide, by decide⟩

/-- C4 (amended): the hour histogram lists exactly the distinct hours that
occur in the data, ascending by hour, each with its exact positive
occurrence count; hours with no events are absent rather than present
with count 0. -/
theorem C4_hourly_amended (df : List CanonRow) :
    List.Sorted keyLe (hourly_counts df)
    ∧ ((hourly_counts df).map Prod.fst).Perm
        (firstOccs (df.map (fun r => r.hour)))
    ∧ ∀ p ∈ hourly_counts df,
        p.2 = (df.map (fun r => r.hour)).count p.1 ∧ 0 < p.2 := by
  refine ⟨List.sorted_insertionSort keyLe _, ?_, ?_⟩
  · have h1 : ((hourly_counts df).map Prod.fst).Perm
        ((value_counts (df.map (fun r => r.hour))).map Prod.fst) :=
      (List.perm_insertionSort keyLe _).map _
    have h2 : ((value_counts (df.map (fun r => r.hour))).map Prod.fst).Perm
        ((countsRaw (df.map (fun r => r.hour))).map Prod.fst) :=
      (List.perm_insertionSort cntGe _).map _
    have h3 : (countsRaw (df.map (fun r => r.hour))).map Prod.fst =
        firstOccs (df.map (fun r => r.hour)) :=
      map_fst_pairing _ _
    exact (h1.trans h2).trans (h3 ▸ List.Perm.refl _)
  · intro p hp
    have hp1 : p ∈ value_counts (df.map (fun r => r.hour)) :=
      (List.mem_insertionSort keyLe).mp hp
    have hp2 : p ∈ countsRaw (df.map (fun r => r.hour)) :=
      (List.mem_insertionSort cntGe).mp hp1
    obtain ⟨hk, hc⟩ := mem_countsRaw hp2
    exact ⟨hc, hc ▸ List.count_pos_iff.mpr hk⟩

/-- Witness for C4 (amended) at a concrete one-row table. -/
theorem C4_hourly_amended_witness :
    (0, 1).2 = (([⟨"T1", "A", 63866104200, -21600, 200000, 0, "Monday"⟩] :
        List CanonRow).map (fun r => r.hour)).count (0, 1).1 :=
  ((C4_hourly_amended
      [⟨"T1", "A", 63866104200, -21600, 200000, 0, "Monday"⟩]).2.2
    (0, 1) (by decide)).1

/-- C5 counterexample: the day-of-week histogram marks days absent from the
data with a null entry (`reindex` fills `NaN`), not with a zero count: a
Monday-only table yields `("Tuesday", none)`, and `("Tuesday", some 0)`
is not an entry. -/
theorem C5_weekly_counterexample :
    daily_counts [⟨"T1", "A", 63866104200, -21600, 200000, 0, "Monday"⟩] =
      [("Monday", some 1), ("Tuesday", none), ("Wednesday", none),
       ("Thursday", none), ("Friday", none), ("Saturday", none),
       ("Sunday", none)]
    ∧ ("Tuesday", (none : Option Nat)) ∈
        daily_counts [⟨"T1", "A", 63866104200, -21600, 200000, 0, "Monday"⟩]
    ∧ ("Tuesday", some 0) ∉
        daily_counts [⟨"T1", "A", 63866104200, -21600, 200000, 0, "Monday"⟩] := by
  refine ⟨by decide, by decide, by decide⟩

/-- C5 (amended): for every non-empty canonical table the day-of-week
histogram has exactly 7 entries in fixed Monday-first calendar order; a
day that occurs carries its exact occurrence count, while a day name
absent from the data carries a null (`NaN`) entry rather than a zero
count. -/
theorem C5_weekly_amended (df : List CanonRow) (hne : df ≠ []) :
    (daily_counts df).map Prod.fst = dayOrder
    ∧ (daily_counts df).length = 7
    ∧ ∀ d c?, (d, c?) ∈ daily_counts df →
        (c? = none ↔ ∀ r ∈ df, r.day_of_week ≠ d)
        ∧ ∀ c, c? = some c →
            c = (df.map (fun r => r.day_of_week)).count d := by
  refine ⟨by rw [daily_counts, map_fst_pairing],
          by simp [daily_counts, dayOrder], ?_⟩
  intro d c? hdc
  unfold daily_counts at hdc
  obtain ⟨d0, hd0, heq⟩ := List.mem_map.mp hdc
  obtain ⟨rfl, rfl⟩ := Prod.mk.injEq .. ▸ heq
  constructor
  · constructor
    · intro hnone r hr hday
      rw [Option.map_eq_none'] at hnone
      rw [List.find?_eq_none] at hnone
      have hmem : d0 ∈ df.map (fun r => r.day_of_week) :=
        hday ▸ List.mem_map_of_mem _ hr
      have hvc : (d0, (df.map (fun r => r.day_of_week)).count d0) ∈
          value_counts (df.map (fun r => r.day_of_week)) := by
        apply (List.mem_insertionSort cntGe).mpr
        unfold countsRaw
        exact List.mem_map_of_mem _ (firstOccs_mem.mpr hmem)
      have := hnone _ hvc
      simp at this
    · intro hall
      rw [Option.map_eq_none', List.find?_eq_none]
      intro p hp hbeq
      have hp2 : p ∈ countsRaw (df.map (fun r => r.day_of_week)) :=
        (List.mem_insertionSort cntGe).mp hp
      have hk := (mem_countsRaw hp2).1
      obtain ⟨r, hr, hrd⟩ := List.mem_map.mp hk
      have : p.1 = d0 := by simpa using hbeq
      exact hall r hr (by rw [hrd, this])
  · intro c hc
    rw [Option.map_eq_some'] at hc
    obtain ⟨p, hfind, hp2⟩ := hc
    have hpred := List.find?_some hfind
    have hmem := List.mem_of_find?_eq_some hfind
    have hp1 : p.1 = d0 := by simpa using hpred
    have hcnt := (mem_countsRaw ((List.mem_insertionSort cntGe).mp hmem)).2
    rw [← hp2, hcnt, hp1]

/-- Witness for C5 (amended) at a concrete one-row table. -/
theorem C5_weekly_amended_witness :
    (daily_counts
      [⟨"T1", "A", 63866104200, -21600, 200000, 0, "Monday"⟩]).map Prod.fst =
      dayOrder :=
  (C5_weekly_amended [⟨"T1", "A", 63866104200, -21600, 200000, 0, "Monday"⟩]
    (by decide)).1

/-- C6: the top-N ranking of a column is `value_counts` truncated to `n`:
when `n` is at least the number of distinct values it returns the whole
ranking, one entry per distinct value with its exact count and no
padding; the ranking is sorted descending by count; and entries of equal
count appear in first-encountered order (the filter of the ranking at any
fixed count is a prefix of the first-occurrence count list at that
count). -/
theorem C6_top_n_ranking (α : Type) [DecidableEq α] (xs : List α) (n : Nat) :
    ((countsRaw xs).length ≤ n →
      top_n xs n = value_counts xs
        ∧ (top_n xs n).length = (firstOccs xs).length)
    ∧ List.Sorted cntGe (top_n xs n)
    ∧ (∀ p ∈ top_n xs n, p.2 = xs.count p.1)
    ∧ ∀ c, ∃ t, (top_n xs n).filter (fun q => decide (q.2 = c)) ++ t =
        (countsRaw xs).filter (fun q => decide (q.2 = c)) := by
  have hlen : (value_counts xs).length = (countsRaw xs).length :=
    (List.perm_insertionSort cntGe _).length_eq
  refine ⟨?_, ?_, ?_, ?_⟩
  · intro hn
    constructor
    · exact List.take_of_length_le (by omega)
    · unfold top_n
      rw [List.take_of_length_le (by omega), hlen, countsRaw, List.length_map]
  · exact List.Pairwise.sublist (List.take_sublist n _)
      (List.sorted_insertionSort cntGe _)
  · intro p hp
    have hp' : p ∈ value_counts xs := List.mem_of_mem_take hp
    exact (mem_countsRaw ((List.mem_insertionSort cntGe).mp hp')).2
  · intro c
    refine ⟨((value_counts xs).drop n).filter (fun q => decide (q.2 = c)), ?_⟩
    unfold top_n
    rw [← List.filter_append, List.take_append_drop]
    exact filter_count_insertionSort _ c

/-- Witness for C6: with 4 events over 3 distinct values and N = 10, the
ranking is the whole `value_counts` list. -/
theorem C6_top_n_ranking_witness :
    top_n ["a", "b", "b", "c"] 10 = value_counts ["a", "b", "b", "c"] :=
  ((C6_top_n_ranking String ["a", "b", "b", "c"] 10).1 (by decide)).1

end SpotifyApp
